import Mathlib

/-!
Shallow embedding of the fl-plugin-sorter core (src/config.rs,
src/commands/sort.rs, src/commands/unsort.rs).

Filesystem state is modelled explicitly: a path is a list of segments,
and a filesystem is a list of directory paths plus a list of regular
files with their textual contents.  Filesystem operations that can only
fail for environmental reasons (permissions and the like) are modelled
as total; structural failures that the code can hit (copying from a
path that is not a regular file, listing a path that is not a
directory) are modelled with `Except`, matching the `Result` plumbing
of the source.
-/

/-- A filesystem path, as a list of segments. -/
abbrev FPath := List String

/-- Explicit filesystem state: existing directories and regular files
(with their textual contents). -/
structure FS where
  dirs : List FPath
  files : List (FPath × String)
deriving DecidableEq

/-- Model of `Path::is_dir`. -/
def FS.isDir (fs : FS) (p : FPath) : Bool :=
  fs.dirs.any (fun q => decide (q = p))

/-- Model of reading a regular file's contents (`fs::read_to_string`,
and the source side of `fs::copy`); `none` when `p` is not a regular
file. -/
def FS.read (fs : FS) (p : FPath) : Option String :=
  (fs.files.find? (fun e => decide (e.1 = p))).map (fun e => e.2)

/-- Model of `Path::is_file`. -/
def FS.isFile (fs : FS) (p : FPath) : Bool :=
  fs.files.any (fun e => decide (e.1 = p))

/-- Model of `Path::exists`: true for directories and regular files. -/
def FS.pathExists (fs : FS) (p : FPath) : Bool :=
  fs.isDir p || fs.isFile p

/-- Model of writing a file (`fs::write`, and the destination side of
`fs::copy`): overwrites any previous file at `p`. -/
def FS.writeFile (fs : FS) (p : FPath) (c : String) : FS :=
  ⟨fs.dirs, (p, c) :: fs.files.filter (fun e => !decide (e.1 = p))⟩

/-- Model of `fs::create_dir_all`: creates the directory and all of its
(nonempty) ancestors. -/
def FS.createDirAll (fs : FS) (p : FPath) : FS :=
  ⟨p.inits.filter (fun q => !q.isEmpty) ++ fs.dirs, fs.files⟩

/-- Model of `fs::remove_file`. -/
def FS.removeFile (fs : FS) (p : FPath) : FS :=
  ⟨fs.dirs, fs.files.filter (fun e => !decide (e.1 = p))⟩

/-- Model of `fs::remove_dir` (non-recursive). -/
def FS.removeDir (fs : FS) (p : FPath) : FS :=
  ⟨fs.dirs.filter (fun q => !decide (q = p)), fs.files⟩

/-- An entry (file or directory) lying strictly below directory `d`. -/
def FS.EntryUnder (fs : FS) (d q : FPath) : Prop :=
  (q ∈ fs.dirs ∨ ∃ c, (q, c) ∈ fs.files) ∧ d <+: q ∧ q ≠ d

/-- Model of `fs::read_dir(d)?.next().is_none()`: the directory holds
no entry at all. -/
def FS.dirEmptyB (fs : FS) (d : FPath) : Bool :=
  fs.dirs.all (fun q => !(decide (d <+: q)) || decide (q = d)) &&
  fs.files.all (fun e => !(decide (d <+: e.1)) || decide (e.1 = d))

/-- `PluginGroupType` from src/config.rs. -/
inductive PluginGroupType
  | effect
  | generator
deriving DecidableEq

/-- `PluginGroupType::name`. -/
def PluginGroupType.typeName : PluginGroupType → String
  | .effect => "effect"
  | .generator => "generator"

/-- `PluginGroup` from src/config.rs: the name of a group of plugins
and the ordered list of plugin names sorted into that group. -/
structure PluginGroup where
  name : String
  plugins : List String
deriving DecidableEq

/-- The TOML (de)serialization of `PluginGroup`s, performed in the
source by the external `toml`/`serde` crates (`toml::to_string` and
`toml::from_str`); modelled as an abstract codec parameter. -/
structure Codec where
  ser : PluginGroup → String
  de : String → Except String PluginGroup

/-- One entry of a registry directory, as enumerated by `fs::read_dir`
inside `Config::groups`: its file name (last path segment), whether it
is a regular file, and its contents. -/
structure DirEntry where
  fname : String
  isFile : Bool
  content : String
deriving DecidableEq

/-- Index of the last '.' in a list of characters. -/
def lastDotAux : List Char → Option Nat
  | [] => none
  | c :: rest =>
    match lastDotAux rest with
    | some i => some (i + 1)
    | none => if c = '.' then some 0 else none

/-- Model of Rust `Path::extension` on a bare file name: the portion
after the final '.', or `none` when there is no '.' or the only '.' is
the leading character (hidden files such as ".toml" have no
extension). -/
def rustExtension (s : String) : Option String :=
  match lastDotAux s.toList with
  | none => none
  | some i => if i = 0 then none else some (String.mk (s.toList.drop (i + 1)))

/-- `PluginGroup::from_file`, with file reading and TOML parsing
factored through the directory entry and the codec (the `file_name`
extraction always succeeds for an enumerated entry). -/
def PluginGroup.fromFile (c : Codec) (e : DirEntry) : Except String PluginGroup :=
  if e.isFile then c.de e.content
  else .error ("provided path is not a file")

/-- The loop of `Config::groups`: `gs` are the groups pushed so far,
`names` the set of group names seen so far, and `ws` the duplicate-name
warnings printed so far (group name paired with the file name of the
entry that repeated it). -/
def Config.groupsAux (c : Codec) :
    List DirEntry → List PluginGroup → List String → List (String × String) →
    Except String (List PluginGroup × List (String × String))
  | [], gs, _, ws => .ok (gs, ws)
  | e :: rest, gs, names, ws =>
    if e.isFile && (rustExtension e.fname == some "toml") then
      match PluginGroup.fromFile c e with
      | .error m => .error m
      | .ok g =>
        if names.contains g.name then
          Config.groupsAux c rest (gs ++ [g]) names (ws ++ [(g.name, e.fname)])
        else
          Config.groupsAux c rest (gs ++ [g]) (names ++ [g.name]) ws
    else
      Config.groupsAux c rest gs names ws

/-- `Config::groups`: load every group definition file of a registry
directory, returning the retained groups and the emitted warnings. -/
def Config.groups (c : Codec) (entries : List DirEntry) :
    Except String (List PluginGroup × List (String × String)) :=
  Config.groupsAux c entries [] [] []

/-- The directory entry produced by `PluginGroupData::save_group`: it
writes `c.ser g` to the file `fileName ++ ".toml"` (via
`PluginGroupData::group_path`), overwriting any previous file with that
name. -/
def saveGroupEntry (c : Codec) (fileName : String) (g : PluginGroup) : DirEntry :=
  ⟨fileName ++ ".toml", true, c.ser g⟩

/-- `InstalledPlugins` from src/config.rs: the legacy-format (`VST`)
and newer-format (`VST3`) installed-plugin roots. -/
structure InstalledPlugins where
  vst : FPath
  vst3 : FPath
deriving DecidableEq

/-- `InstalledPlugins::get_plugin`: probe the newer-format root first,
then the legacy-format root, for `<name>.fst`. -/
def InstalledPlugins.getPlugin (ip : InstalledPlugins) (fs : FS) (name : String) :
    Option FPath :=
  if fs.pathExists (ip.vst3 ++ [name ++ ".fst"]) then some (ip.vst3 ++ [name ++ ".fst"])
  else if fs.pathExists (ip.vst ++ [name ++ ".fst"]) then some (ip.vst ++ [name ++ ".fst"])
  else none

/-- `InstalledPlugins::from_folder`. -/
def InstalledPlugins.fromFolder (fs : FS) (pluginFolder : FPath) :
    Except String InstalledPlugins :=
  if (!fs.pathExists (pluginFolder ++ ["VST3"]) || !fs.pathExists (pluginFolder ++ ["VST"])) ||
      (!fs.isDir (pluginFolder ++ ["VST3"]) || !fs.isDir (pluginFolder ++ ["VST"])) then
    .error ("installed plugins folder does not contain VST or VST3 folders")
  else
    .ok ⟨pluginFolder ++ ["VST"], pluginFolder ++ ["VST3"]⟩

/-- `PluginDatabaseGroup` from src/config.rs. -/
structure PluginDatabaseGroup where
  group_type : PluginGroupType
  installed : InstalledPlugins
  folder : FPath
deriving DecidableEq

/-- `PluginDatabase` from src/config.rs. -/
structure PluginDatabase where
  effects : PluginDatabaseGroup
  generators : PluginDatabaseGroup
deriving DecidableEq

/-- `PluginDatabase::new`. -/
def PluginDatabase.new (fs : FS) (databasePath : FPath) : Except String PluginDatabase :=
  if !([databasePath ++ ["Effects"], databasePath ++ ["Generators"],
        databasePath ++ ["Installed", "Effects"],
        databasePath ++ ["Installed", "Generators"]].all fs.pathExists) then
    .error ("plugin database structure is invalid")
  else
    match InstalledPlugins.fromFolder fs (databasePath ++ ["Installed", "Effects"]) with
    | .error m => .error m
    | .ok ie =>
      match InstalledPlugins.fromFolder fs (databasePath ++ ["Installed", "Generators"]) with
      | .error m => .error m
      | .ok ig =>
        .ok ⟨⟨.effect, ie, databasePath ++ ["Effects"]⟩,
             ⟨.generator, ig, databasePath ++ ["Generators"]⟩⟩

/-- `PluginDatabase::get_group_path`. -/
def PluginDatabase.getGroupPath (db : PluginDatabase) (g : PluginGroup)
    (t : PluginGroupType) : FPath :=
  (match t with
   | .effect => db.effects
   | .generator => db.generators).folder ++ [g.name]

/-- Per-category counters of `SortSubcommand::sort_groups`. -/
structure SortResult where
  folder_count : Nat
  plugin_count : Nat
deriving DecidableEq

/-- The inner loop of `SortSubcommand::sort_groups`: copy each
resolvable plugin of a group into the group directory `dir`, threading
the category's plugin counter `n` and collecting the names of skipped
(unresolvable) plugins. -/
def copyPlugins (inst : InstalledPlugins) (dir : FPath) :
    FS → Nat → List String → Except String (FS × Nat × List String)
  | fs, n, [] => .ok (fs, n, [])
  | fs, n, p :: rest =>
    match inst.getPlugin fs p with
    | some src =>
      match fs.read src with
      | some c => copyPlugins inst dir (fs.writeFile (dir ++ [p ++ ".fst"]) c) (n + 1) rest
      | none => .error ("failed to copy " ++ p)
    | none =>
      match copyPlugins inst dir fs n rest with
      | .error m => .error m
      | .ok (fs', n', sk) => .ok (fs', n', p :: sk)

/-- The per-group body of `SortSubcommand::sort_groups`. -/
def sortStep (inst : InstalledPlugins) (pluginFolder : FPath) (fs : FS) (r : SortResult)
    (g : PluginGroup) : Except String (FS × SortResult × List String) :=
  if g.plugins.isEmpty then .ok (fs, r, [])
  else
    match copyPlugins inst (pluginFolder ++ [g.name])
        (fs.createDirAll (pluginFolder ++ [g.name])) r.plugin_count g.plugins with
    | .error m => .error m
    | .ok (fs2, n, sk) => .ok (fs2, ⟨r.folder_count + 1, n⟩, sk)

/-- The group loop of `SortSubcommand::sort_groups`. -/
def sortGroupsAux (inst : InstalledPlugins) (pluginFolder : FPath) :
    FS → SortResult → List PluginGroup → Except String (FS × SortResult)
  | fs, r, [] => .ok (fs, r)
  | fs, r, g :: rest =>
    match sortStep inst pluginFolder fs r g with
    | .error m => .error m
    | .ok (fs1, r1, _) => sortGroupsAux inst pluginFolder fs1 r1 rest

/-- `SortSubcommand::sort_groups`. -/
def sortGroups (inst : InstalledPlugins) (pluginFolder : FPath) (fs : FS)
    (groups : List PluginGroup) : Except String (FS × SortResult) :=
  sortGroupsAux inst pluginFolder fs ⟨0, 0⟩ groups

/-- `SortSubcommand::run`: the optional `SortResult` per category is
`none` when that category was skipped because its registry is empty. -/
def sortRun (fs : FS) (db : PluginDatabase)
    (effectGroups generatorGroups : List PluginGroup) :
    Except String (FS × Option SortResult × Option SortResult) :=
  if effectGroups.isEmpty && generatorGroups.isEmpty then
    .error ("there are no plugin groups to sort")
  else
    match (if effectGroups.isEmpty then
        (.ok (fs, none) : Except String (FS × Option SortResult))
      else
        (sortGroups db.effects.installed db.effects.folder fs effectGroups).map
          (fun fr => (fr.1, some fr.2))) with
    | .error m => .error m
    | .ok (fs1, r1) =>
      match (if generatorGroups.isEmpty then
          (.ok (fs1, none) : Except String (FS × Option SortResult))
        else
          (sortGroups db.generators.installed db.generators.folder fs1 generatorGroups).map
            (fun fr => (fr.1, some fr.2))) with
      | .error m => .error m
      | .ok (fs2, r2) => .ok (fs2, r1, r2)

/-- The inner loop of `UnsortSubcommand::remove_sorted_files`: delete
each existing tracked shim file `<base>/<plugin>.fst`, counting
removals. -/
def removePlugins (base : FPath) : FS → Nat → List String → FS × Nat
  | fs, n, [] => (fs, n)
  | fs, n, p :: rest =>
    if fs.pathExists (base ++ [p ++ ".fst"]) && fs.isFile (base ++ [p ++ ".fst"]) then
      removePlugins base (fs.removeFile (base ++ [p ++ ".fst"])) (n + 1) rest
    else
      removePlugins base fs n rest

/-- The per-group body of `UnsortSubcommand::remove_sorted_files`.
Listing a `base_path` that exists but is not a directory fails, exactly
as `fs::read_dir(&base_path)?` does. -/
def unsortStep (db : PluginDatabase) (t : PluginGroupType) (fs : FS) (n : Nat)
    (g : PluginGroup) : Except String (FS × Nat) :=
  if !fs.pathExists (db.getGroupPath g t) then .ok (fs, n)
  else
    if (removePlugins (db.getGroupPath g t) fs n g.plugins).1.isDir (db.getGroupPath g t) then
      .ok
        (if (removePlugins (db.getGroupPath g t) fs n g.plugins).1.dirEmptyB
            (db.getGroupPath g t) then
          (removePlugins (db.getGroupPath g t) fs n g.plugins).1.removeDir (db.getGroupPath g t)
        else (removePlugins (db.getGroupPath g t) fs n g.plugins).1,
        (removePlugins (db.getGroupPath g t) fs n g.plugins).2)
    else
      .error ("failed to read group directory")

/-- The group loop of `UnsortSubcommand::remove_sorted_files`. -/
def removeSortedFilesAux (db : PluginDatabase) (t : PluginGroupType) :
    FS → Nat → List PluginGroup → Except String (FS × Nat)
  | fs, n, [] => .ok (fs, n)
  | fs, n, g :: rest =>
    match unsortStep db t fs n g with
    | .error m => .error m
    | .ok (fs1, n1) => removeSortedFilesAux db t fs1 n1 rest

/-- `UnsortSubcommand::remove_sorted_files`. -/
def removeSortedFiles (db : PluginDatabase) (groups : List PluginGroup)
    (t : PluginGroupType) (fs : FS) : Except String (FS × Nat) :=
  if groups.isEmpty then .ok (fs, 0)
  else removeSortedFilesAux db t fs 0 groups

/-- Whether an `Except` computation succeeded. -/
def exceptIsOk {α : Type} : Except String α → Bool
  | .ok _ => true
  | .error _ => false

/-- Concatenate strings with newline separators. -/
def encodeLines : List String → String
  | [] => ""
  | [s] => s
  | s :: rest => s ++ "\n" ++ encodeLines rest

/-- Split a character list at newlines. -/
def splitLines : List Char → List (List Char)
  | [] => [[]]
  | c :: rest =>
    match splitLines rest with
    | [] => [[]]
    | g :: gs => if c = '\n' then [] :: g :: gs else (c :: g) :: gs

/-- A concrete codec used to instantiate witnesses: the group name and
its plugin entries separated by newlines; the empty string is
malformed. -/
def lineCodec : Codec where
  ser g := encodeLines (g.name :: g.plugins)
  de s :=
    if s = "" then .error ("failed to parse")
    else
      match (splitLines s.toList).map (fun cs => String.mk cs) with
      | [] => .error ("failed to parse")
      | n :: ps => .ok ⟨n, ps⟩

theorem find?_filter_of_imp {α : Type} (l : List α) (pr f : α → Bool)
    (h : ∀ x, pr x = true → f x = true) :
    (l.filter f).find? pr = l.find? pr := by
  induction l with
  | nil => rfl
  | cons e t ih =>
    by_cases he : pr e = true
    · rw [List.filter_cons_of_pos (h e he), List.find?_cons_of_pos _ he,
        List.find?_cons_of_pos _ he]
    · by_cases hfe : f e = true
      · rw [List.filter_cons_of_pos hfe, List.find?_cons_of_neg _ he,
          List.find?_cons_of_neg _ he, ih]
      · rw [List.filter_cons_of_neg (by simpa using hfe), ih,
          List.find?_cons_of_neg _ he]

theorem FS.isDir_iff_mem (fs : FS) (q : FPath) : fs.isDir q = true ↔ q ∈ fs.dirs := by
  simp [FS.isDir, List.any_eq_true]

theorem FS.isFile_eq_read_isSome (fs : FS) (q : FPath) :
    fs.isFile q = (fs.read q).isSome := by
  unfold FS.isFile FS.read
  induction fs.files with
  | nil => rfl
  | cons e t ih =>
    by_cases h : e.1 = q <;> simp [List.any_cons, List.find?_cons, h, ih]

theorem FS.read_writeFile (fs : FS) (p : FPath) (c : String) (q : FPath) :
    (fs.writeFile p c).read q = if q = p then some c else fs.read q := by
  unfold FS.writeFile FS.read
  by_cases h : q = p
  · subst h
    rw [List.find?_cons_of_pos _ (by simp)]
    simp
  · rw [if_neg h, List.find?_cons_of_neg _ (by
        simp only [decide_eq_true_eq]
        exact fun e => h e.symm),
      find?_filter_of_imp _ _ _ (fun x hx => by
        simp only [decide_eq_true_eq] at hx
        simp only [hx, Bool.not_eq_true', decide_eq_false_iff_not]
        exact h)]

theorem FS.dirs_writeFile (fs : FS) (p : FPath) (c : String) :
    (fs.writeFile p c).dirs = fs.dirs := rfl

theorem FS.isDir_writeFile (fs : FS) (p : FPath) (c : String) (q : FPath) :
    (fs.writeFile p c).isDir q = fs.isDir q := rfl

theorem FS.read_createDirAll (fs : FS) (d q : FPath) :
    (fs.createDirAll d).read q = fs.read q := rfl

theorem FS.isFile_createDirAll (fs : FS) (d q : FPath) :
    (fs.createDirAll d).isFile q = fs.isFile q := rfl

theorem FS.files_createDirAll (fs : FS) (d : FPath) :
    (fs.createDirAll d).files = fs.files := rfl

theorem FS.isDir_createDirAll_iff (fs : FS) (d q : FPath) :
    (fs.createDirAll d).isDir q = true ↔ (q ≠ [] ∧ q <+: d) ∨ fs.isDir q = true := by
  simp [FS.isDir_iff_mem, FS.createDirAll, List.mem_filter, List.mem_inits,
    List.isEmpty_iff, and_comm]

theorem FS.isFile_writeFile (fs : FS) (p : FPath) (c : String) (q : FPath) :
    (fs.writeFile p c).isFile q = (decide (q = p) || fs.isFile q) := by
  rw [FS.isFile_eq_read_isSome, FS.isFile_eq_read_isSome, FS.read_writeFile]
  by_cases h : q = p <;> simp [h]

theorem FS.pathExists_writeFile (fs : FS) (p : FPath) (c : String) (q : FPath) :
    (fs.writeFile p c).pathExists q = (decide (q = p) || fs.pathExists q) := by
  unfold FS.pathExists
  rw [FS.isFile_writeFile, FS.isDir_writeFile]
  cases fs.isDir q <;> cases fs.isFile q <;> by_cases h : q = p <;> simp [h]

theorem append_singleton_inj {α : Type} {a b : List α} {x y : α} :
    a ++ [x] = b ++ [y] ↔ a = b ∧ x = y := by
  constructor
  · intro h
    have hl : a.length = b.length := by
      have := congrArg List.length h
      simpa using this
    rcases List.append_inj h hl with ⟨h1, h2⟩
    exact ⟨h1, by simpa using h2⟩
  · rintro ⟨rfl, rfl⟩; rfl

theorem getPlugin_congr (ip : InstalledPlugins) (fs₁ fs₂ : FS) (name : String)
    (h3 : fs₁.pathExists (ip.vst3 ++ [name ++ ".fst"]) =
      fs₂.pathExists (ip.vst3 ++ [name ++ ".fst"]))
    (hv : fs₁.pathExists (ip.vst ++ [name ++ ".fst"]) =
      fs₂.pathExists (ip.vst ++ [name ++ ".fst"])) :
    ip.getPlugin fs₁ name = ip.getPlugin fs₂ name := by
  unfold InstalledPlugins.getPlugin
  rw [h3, hv]

theorem getPlugin_writeFile (ip : InstalledPlugins) (fs : FS) (dir : FPath) (x : String)
    (c : String) (name : String) (h3 : ip.vst3 ≠ dir) (hv : ip.vst ≠ dir) :
    ip.getPlugin (fs.writeFile (dir ++ [x]) c) name = ip.getPlugin fs name := by
  apply getPlugin_congr
  · rw [FS.pathExists_writeFile]
    have : ¬(ip.vst3 ++ [name ++ ".fst"] = dir ++ [x]) := by
      rw [append_singleton_inj]; exact fun h => h3 h.1
    simp [this]
  · rw [FS.pathExists_writeFile]
    have : ¬(ip.vst ++ [name ++ ".fst"] = dir ++ [x]) := by
      rw [append_singleton_inj]; exact fun h => hv h.1
    simp [this]

theorem FS.isDir_createDirAll (fs : FS) (d q : FPath) (h : ¬ q <+: d) :
    (fs.createDirAll d).isDir q = fs.isDir q := by
  by_cases hpd : (fs.createDirAll d).isDir q = true
  · rcases (FS.isDir_createDirAll_iff fs d q).mp hpd with ⟨_, hpre⟩ | hm
    · exact absurd hpre h
    · rw [hpd, hm]
  · have hm : ¬ fs.isDir q = true :=
      fun hm => hpd ((FS.isDir_createDirAll_iff fs d q).mpr (Or.inr hm))
    rw [Bool.not_eq_true] at hpd hm
    rw [hpd, hm]

theorem FS.pathExists_createDirAll (fs : FS) (d q : FPath) (h : ¬ q <+: d) :
    (fs.createDirAll d).pathExists q = fs.pathExists q := by
  unfold FS.pathExists
  rw [FS.isFile_createDirAll, FS.isDir_createDirAll fs d q h]

theorem getPlugin_createDirAll (ip : InstalledPlugins) (fs : FS) (d : FPath) (name : String)
    (h3 : ¬ ip.vst3 <+: d) (hv : ¬ ip.vst <+: d) :
    ip.getPlugin (fs.createDirAll d) name = ip.getPlugin fs name := by
  apply getPlugin_congr
  · exact FS.pathExists_createDirAll fs d _ (fun h => h3 ((List.prefix_append _ _).trans h))
  · exact FS.pathExists_createDirAll fs d _ (fun h => hv ((List.prefix_append _ _).trans h))

theorem FS.pathExists_of_isDir (fs : FS) (q : FPath) (h : fs.isDir q = true) :
    fs.pathExists q = true := by
  simp [FS.pathExists, h]

/-- C2: `InstalledPlugins::get_plugin` probes the newer-format (`VST3`)
root first, then the legacy-format (`VST`) root, each joined with
`<name>.fst`, returns the first existing path, and `none` when neither
exists; in particular when the shim exists under both roots the
newer-format path is returned (first conjunct). -/
theorem getPlugin_precedence (ip : InstalledPlugins) (fs : FS) (name : String) :
    (fs.pathExists (ip.vst3 ++ [name ++ ".fst"]) = true →
      ip.getPlugin fs name = some (ip.vst3 ++ [name ++ ".fst"])) ∧
    (fs.pathExists (ip.vst3 ++ [name ++ ".fst"]) = false →
      fs.pathExists (ip.vst ++ [name ++ ".fst"]) = true →
      ip.getPlugin fs name = some (ip.vst ++ [name ++ ".fst"])) ∧
    (fs.pathExists (ip.vst3 ++ [name ++ ".fst"]) = false →
      fs.pathExists (ip.vst ++ [name ++ ".fst"]) = false →
      ip.getPlugin fs name = none) := by
  unfold InstalledPlugins.getPlugin
  refine ⟨fun h1 => by simp [h1], fun h1 h2 => by simp [h1, h2], fun h1 h2 => by simp [h1, h2]⟩

/-- Witness for C2: a shim present under both roots resolves to the
newer-format (`VST3`) path. -/
theorem getPlugin_precedence_w :
    FS.pathExists ⟨[], [(["VST3", "a.fst"], "x"), (["VST", "a.fst"], "y")]⟩
        (["VST3"] ++ ["a" ++ ".fst"]) = true ∧
    InstalledPlugins.getPlugin ⟨["VST"], ["VST3"]⟩
        ⟨[], [(["VST3", "a.fst"], "x"), (["VST", "a.fst"], "y")]⟩ "a" =
      some (["VST3"] ++ ["a" ++ ".fst"]) :=
  ⟨by decide,
   (getPlugin_precedence ⟨["VST"], ["VST3"]⟩
      ⟨[], [(["VST3", "a.fst"], "x"), (["VST", "a.fst"], "y")]⟩ "a").1 (by decide)⟩

theorem fromFolder_isOk_eq (fs : FS) (pf : FPath) :
    exceptIsOk (InstalledPlugins.fromFolder fs pf) =
      (fs.pathExists (pf ++ ["VST3"]) && fs.pathExists (pf ++ ["VST"]) &&
       fs.isDir (pf ++ ["VST3"]) && fs.isDir (pf ++ ["VST"])) := by
  unfold InstalledPlugins.fromFolder exceptIsOk
  generalize fs.pathExists (pf ++ ["VST3"]) = a
  generalize fs.pathExists (pf ++ ["VST"]) = b
  generalize fs.isDir (pf ++ ["VST3"]) = c
  generalize fs.isDir (pf ++ ["VST"]) = d
  cases a <;> cases b <;> cases c <;> cases d <;> rfl

theorem pluginDatabaseNew_isOk_eq (fs : FS) (base : FPath) :
    exceptIsOk (PluginDatabase.new fs base) =
      ([base ++ ["Effects"], base ++ ["Generators"], base ++ ["Installed", "Effects"],
        base ++ ["Installed", "Generators"]].all fs.pathExists &&
       exceptIsOk (InstalledPlugins.fromFolder fs (base ++ ["Installed", "Effects"])) &&
       exceptIsOk (InstalledPlugins.fromFolder fs (base ++ ["Installed", "Generators"]))) := by
  unfold PluginDatabase.new
  cases hall : [base ++ ["Effects"], base ++ ["Generators"], base ++ ["Installed", "Effects"],
      base ++ ["Installed", "Generators"]].all fs.pathExists
  · simp [exceptIsOk]
  · simp only [Bool.not_true, Bool.true_and, if_false, Bool.false_eq_true]
    cases hE : InstalledPlugins.fromFolder fs (base ++ ["Installed", "Effects"]) with
    | error m => simp [exceptIsOk]
    | ok ie =>
      cases hG : InstalledPlugins.fromFolder fs (base ++ ["Installed", "Generators"]) with
      | error m => simp [exceptIsOk]
      | ok ig => simp [exceptIsOk]

/-- C3: `PluginDatabase::new` succeeds exactly when the whole fixed
layout is present under the base path: the two destination roots and
the two installed roots exist, and the four per-category `VST3`/`VST`
installed subdirectories (for example `Installed/Generators/VST3`)
exist as directories.  When any of them is missing the construction
returns `Except.error` (a validation error), so no database value is
produced. -/
theorem pluginDatabaseNew_ok_iff (fs : FS) (base : FPath) :
    exceptIsOk (PluginDatabase.new fs base) = true ↔
      (fs.pathExists (base ++ ["Effects"]) = true ∧
       fs.pathExists (base ++ ["Generators"]) = true ∧
       fs.pathExists (base ++ ["Installed", "Effects"]) = true ∧
       fs.pathExists (base ++ ["Installed", "Generators"]) = true ∧
       fs.isDir (base ++ ["Installed", "Effects", "VST3"]) = true ∧
       fs.isDir (base ++ ["Installed", "Effects", "VST"]) = true ∧
       fs.isDir (base ++ ["Installed", "Generators", "VST3"]) = true ∧
       fs.isDir (base ++ ["Installed", "Generators", "VST"]) = true) := by
  rw [pluginDatabaseNew_isOk_eq, fromFolder_isOk_eq, fromFolder_isOk_eq]
  simp only [List.all_cons, List.all_nil, Bool.and_true, Bool.and_eq_true,
    List.append_assoc, List.cons_append, List.nil_append]
  constructor
  · rintro ⟨⟨⟨h1, h2, h3, h4⟩, ⟨⟨_, _⟩, he3⟩, he1⟩, ⟨⟨_, _⟩, hg3⟩, hg1⟩
    exact ⟨h1, h2, h3, h4, he3, he1, hg3, hg1⟩
  · rintro ⟨h1, h2, h3, h4, he3, he1, hg3, hg1⟩
    exact ⟨⟨⟨h1, h2, h3, h4⟩,
      ⟨⟨FS.pathExists_of_isDir _ _ he3, FS.pathExists_of_isDir _ _ he1⟩, he3⟩, he1⟩,
      ⟨⟨FS.pathExists_of_isDir _ _ hg3, FS.pathExists_of_isDir _ _ hg1⟩, hg3⟩, hg1⟩

/-- C1 (code bug): on two definition files that both declare the group
name "Delay", `Config::groups` prints the duplicate-name warning whose
text claims to overwrite, yet still pushes BOTH groups: the load
succeeds with a registry retaining two groups named "Delay", not only
the later-enumerated content as the warning text and the spec state. -/
theorem configGroups_duplicate_retains_both :
    Config.groups lineCodec
      [saveGroupEntry lineCodec "one" ⟨"Delay", ["a"]⟩,
       saveGroupEntry lineCodec "two" ⟨"Delay", ["b"]⟩] =
    .ok ([⟨"Delay", ["a"]⟩, ⟨"Delay", ["b"]⟩], [("Delay", "two.toml")]) := rfl

/-- C6: registry load is fail-fast: when any enumerated entry that
carries the definition-file marker (a regular file with extension
`toml`) fails to parse, the whole `Config::groups` load returns an
error, so no partial registry is produced and earlier well-formed files
are not retained. -/
theorem configGroups_failfast (c : Codec) (entries : List DirEntry)
    (h : ∃ e ∈ entries, (e.isFile && (rustExtension e.fname == some "toml")) = true ∧
      exceptIsOk (PluginGroup.fromFile c e) = false) :
    exceptIsOk (Config.groups c entries) = false := by
  have aux : ∀ (es : List DirEntry) (gs : List PluginGroup) (names : List String)
      (ws : List (String × String)),
      (∃ e ∈ es, (e.isFile && (rustExtension e.fname == some "toml")) = true ∧
        exceptIsOk (PluginGroup.fromFile c e) = false) →
      exceptIsOk (Config.groupsAux c es gs names ws) = false := by
    intro es
    induction es with
    | nil => intro gs names ws h'; simp at h'
    | cons e rest ih =>
      intro gs names ws h'
      unfold Config.groupsAux
      by_cases hm : (e.isFile && (rustExtension e.fname == some "toml")) = true
      · rw [if_pos hm]
        cases hf : PluginGroup.fromFile c e with
        | error m => rfl
        | ok g =>
          show exceptIsOk (if names.contains g.name = true
            then Config.groupsAux c rest (gs ++ [g]) names (ws ++ [(g.name, e.fname)])
            else Config.groupsAux c rest (gs ++ [g]) (names ++ [g.name]) ws) = false
          rcases h' with ⟨w, hw, hmk, hbad⟩
          rcases List.mem_cons.mp hw with rfl | hw'
          · rw [hf] at hbad
            exact absurd hbad (by simp [exceptIsOk])
          · by_cases hdup : names.contains g.name = true
            · rw [if_pos hdup]
              exact ih _ _ _ ⟨w, hw', hmk, hbad⟩
            · rw [if_neg hdup]
              exact ih _ _ _ ⟨w, hw', hmk, hbad⟩
      · rw [if_neg hm]
        rcases h' with ⟨w, hw, hmk, hbad⟩
        rcases List.mem_cons.mp hw with rfl | hw'
        · exact absurd hmk hm
        · exact ih _ _ _ ⟨w, hw', hmk, hbad⟩
  exact aux entries [] [] [] h

/-- Witness for C6: a directory with one well-formed and one malformed
definition file loads to an error. -/
theorem configGroups_failfast_w :
    exceptIsOk (Config.groups lineCodec
      [saveGroupEntry lineCodec "one" ⟨"A", []⟩,
       ⟨"bad.toml", true, ""⟩]) = false :=
  configGroups_failfast lineCodec
    [saveGroupEntry lineCodec "one" ⟨"A", []⟩, ⟨"bad.toml", true, ""⟩]
    ⟨⟨"bad.toml", true, ""⟩, by decide, by decide, by decide⟩

theorem lastDotAux_append_dottoml (cs : List Char) :
    lastDotAux (cs ++ ('.' :: ['t', 'o', 'm', 'l'])) = some cs.length := by
  induction cs with
  | nil => rfl
  | cons c cs ih => simp [lastDotAux, ih]

theorem rustExtension_append_toml (id : String) (h : id ≠ "") :
    rustExtension (id ++ ".toml") = some "toml" := by
  have hne : id.toList ≠ [] := by
    intro hl
    apply h
    cases id with
    | mk d =>
      show String.mk d = String.mk []
      rw [show d = ([] : List Char) from hl]
  have hlen : id.toList.length ≠ 0 := fun h0 => hne (List.length_eq_zero.mp h0)
  have hdata : (id ++ ".toml").toList = id.toList ++ ('.' :: ['t', 'o', 'm', 'l']) := by
    show (id ++ ".toml").data = id.data ++ ('.' :: ['t', 'o', 'm', 'l'])
    rw [String.data_append]
  unfold rustExtension
  rw [hdata, lastDotAux_append_dottoml]
  show (if id.toList.length = 0 then none
    else some (String.mk ((id.toList ++ ('.' :: ['t', 'o', 'm', 'l'])).drop
      (id.toList.length + 1)))) = some "toml"
  rw [if_neg hlen]
  have hdrop : (id.toList ++ ('.' :: ['t', 'o', 'm', 'l'])).drop (id.toList.length + 1) =
      ['t', 'o', 'm', 'l'] := by
    rw [List.append_cons, show id.toList.length + 1 = (id.toList ++ ['.']).length by simp,
      List.drop_left]
  rw [hdrop]

/-- C7 counterexample: the round-trip claim fails for the empty file
identifier.  `save_group` with file identifier `""` writes the file
`".toml"`, whose Rust `Path::extension` is `None` (leading-dot file
name), so the re-load skips the file: the load succeeds but yields an
empty registry, not a group equal to the saved one. -/
theorem saveLoad_empty_id_cex :
    Config.groups lineCodec [saveGroupEntry lineCodec "" ⟨"Delay", ["a"]⟩] =
      .ok ([], []) := rfl

/-- C7 (amended): for every group `G` and every NONEMPTY file
identifier `id`, saving `G` under `id` (with the codec satisfying its
round-trip contract at `G`) and re-loading the registry directory that
contains exactly the saved file succeeds and yields exactly the group
`G` — same name, same ordered plugin list — with no warnings. -/
theorem saveLoad_roundtrip (c : Codec) (g : PluginGroup) (id : String)
    (hid : id ≠ "") (hrt : c.de (c.ser g) = .ok g) :
    Config.groups c [saveGroupEntry c id g] = .ok ([g], []) := by
  unfold Config.groups Config.groupsAux saveGroupEntry
  rw [rustExtension_append_toml id hid]
  simp [PluginGroup.fromFile, hrt, Config.groupsAux]

/-- Witness for C7's amended theorem at a concrete group and
identifier. -/
theorem saveLoad_roundtrip_w :
    Config.groups lineCodec [saveGroupEntry lineCodec "one" ⟨"Delay", ["a", "b"]⟩] =
      .ok ([⟨"Delay", ["a", "b"]⟩], []) :=
  saveLoad_roundtrip lineCodec ⟨"Delay", ["a", "b"]⟩ "one" (by decide) rfl

/-- C10: when both category registries are empty, `SortSubcommand::run`
fails with the error "there are no plugin groups to sort" instead of
performing a per-category no-op skip; when exactly one category is
empty, that category alone is silently skipped (no result is reported
for it and it has no filesystem effect) while the other category is
processed by `sort_groups`. -/
theorem sortRun_empty_categories (fs : FS) (db : PluginDatabase)
    (es gs : List PluginGroup) :
    (es = [] → gs = [] →
      sortRun fs db es gs = .error "there are no plugin groups to sort") ∧
    (es = [] → gs ≠ [] →
      sortRun fs db es gs =
        (sortGroups db.generators.installed db.generators.folder fs gs).map
          (fun fr => (fr.1, none, some fr.2))) ∧
    (gs = [] → es ≠ [] →
      sortRun fs db es gs =
        (sortGroups db.effects.installed db.effects.folder fs es).map
          (fun fr => (fr.1, some fr.2, none))) := by
  refine ⟨?_, ?_, ?_⟩
  · rintro rfl rfl; rfl
  · rintro rfl hgs
    have hg : gs.isEmpty = false := by
      cases gs with
      | nil => exact absurd rfl hgs
      | cons a t => rfl
    cases h : sortGroups db.generators.installed db.generators.folder fs gs with
    | error m => simp [sortRun, hg, h, Except.map]
    | ok fr => simp [sortRun, hg, h, Except.map]
  · rintro rfl hes
    have he : es.isEmpty = false := by
      cases es with
      | nil => exact absurd rfl hes
      | cons a t => rfl
    cases h : sortGroups db.effects.installed db.effects.folder fs es with
    | error m => simp [sortRun, he, h, Except.map]
    | ok fr => simp [sortRun, he, h, Except.map]

/-- Witness for C10: empty effects registry and one generator group —
the effects category is skipped and the generators category is
processed. -/
theorem sortRun_empty_categories_w :
    sortRun ⟨[], []⟩
        ⟨⟨.effect, ⟨["V"], ["V3"]⟩, ["E"]⟩, ⟨.generator, ⟨["V"], ["V3"]⟩, ["G"]⟩⟩
        [] [⟨"Grp", []⟩] =
      (sortGroups (InstalledPlugins.mk ["V"] ["V3"]) ["G"] ⟨[], []⟩ [⟨"Grp", []⟩]).map
        (fun fr => (fr.1, none, some fr.2)) :=
  (sortRun_empty_categories ⟨[], []⟩
      ⟨⟨.effect, ⟨["V"], ["V3"]⟩, ["E"]⟩, ⟨.generator, ⟨["V"], ["V3"]⟩, ["G"]⟩⟩
      [] [⟨"Grp", []⟩]).2.1 rfl (by decide)

theorem FS.read_eq_none_of_notmem (fs : FS) (q : FPath)
    (h : ∀ c, (q, c) ∉ fs.files) : fs.read q = none := by
  unfold FS.read
  cases hf : fs.files.find? (fun e => decide (e.1 = q)) with
  | none => rfl
  | some e =>
    have hmem := List.mem_of_find?_eq_some hf
    have hpe := List.find?_some hf
    simp only [decide_eq_true_eq] at hpe
    exact absurd (by rw [← hpe]; exact hmem : (q, e.2) ∈ fs.files) (by
      have : e = (q, e.2) := by
        cases e with
        | mk a b => simp at hpe ⊢; exact hpe
      rw [← this]
      rw [this]
      exact h e.2)

theorem getPlugin_shape (ip : InstalledPlugins) (fs : FS) (name : String) (srcp : FPath)
    (h : ip.getPlugin fs name = some srcp) :
    srcp = ip.vst3 ++ [name ++ ".fst"] ∨ srcp = ip.vst ++ [name ++ ".fst"] := by
  unfold InstalledPlugins.getPlugin at h
  split at h
  · exact Or.inl (Option.some.inj h).symm
  · split at h
    · exact Or.inr (Option.some.inj h).symm
    · cases h

theorem getPlugin_src_off (ip : InstalledPlugins) (dir : FPath) (fs : FS) (name : String)
    (srcp : FPath) (h3 : ¬ ip.vst3 <+: dir) (hv : ¬ ip.vst <+: dir)
    (h : ip.getPlugin fs name = some srcp) :
    ∀ x, srcp ≠ dir ++ [x] := by
  intro x he
  rcases getPlugin_shape ip fs name srcp h with h1 | h1
  · rw [h1] at he
    rcases append_singleton_inj.mp he with ⟨hroot, _⟩
    exact h3 (hroot ▸ List.prefix_refl dir)
  · rw [h1] at he
    rcases append_singleton_inj.mp he with ⟨hroot, _⟩
    exact hv (hroot ▸ List.prefix_refl dir)

theorem FS.isDir_congr (fs₁ fs₂ : FS) (q : FPath) (h : fs₁.dirs = fs₂.dirs) :
    fs₁.isDir q = fs₂.isDir q := by
  unfold FS.isDir
  rw [h]

theorem getPlugin_run_stable (ip : InstalledPlugins) (dir : FPath) (fs fs' : FS)
    (h3 : ¬ ip.vst3 <+: dir) (hv : ¬ ip.vst <+: dir)
    (hdirs : fs'.dirs = (fs.createDirAll dir).dirs)
    (hoff : ∀ q, (∀ x, q ≠ dir ++ [x]) → fs'.read q = fs.read q)
    (name : String) :
    ip.getPlugin fs' name = ip.getPlugin fs name := by
  have probe : ∀ (root : FPath), ¬ root <+: dir →
      fs'.pathExists (root ++ [name ++ ".fst"]) = fs.pathExists (root ++ [name ++ ".fst"]) := by
    intro root hroot
    have hnd : ¬ (root ++ [name ++ ".fst"]) <+: dir :=
      fun hp => hroot ((List.prefix_append root [name ++ ".fst"]).trans hp)
    have hoffq : ∀ x, root ++ [name ++ ".fst"] ≠ dir ++ [x] := by
      intro x he
      rcases append_singleton_inj.mp he with ⟨hroot2, _⟩
      exact hroot (hroot2 ▸ List.prefix_refl dir)
    unfold FS.pathExists
    rw [FS.isFile_eq_read_isSome, FS.isFile_eq_read_isSome, hoff _ hoffq]
    have : fs'.isDir (root ++ [name ++ ".fst"]) = fs.isDir (root ++ [name ++ ".fst"]) := by
      rw [FS.isDir_congr fs' (fs.createDirAll dir) _ hdirs,
        FS.isDir_createDirAll fs dir _ hnd]
    rw [this]
  exact getPlugin_congr ip fs' fs name (probe ip.vst3 h3) (probe ip.vst hv)

theorem string_append_right_cancel (s : String) {a b : String} (h : a ++ s = b ++ s) :
    a = b := by
  have hd : a.data ++ s.data = b.data ++ s.data := by
    rw [← String.data_append, ← String.data_append, h]
  have hab : a.data = b.data := by
    have hlen : a.data.length = b.data.length := by
      have := congrArg List.length hd
      simpa using this
    exact (List.append_inj hd hlen).1
  cases a with
  | mk da =>
    cases b with
    | mk db =>
      show String.mk da = String.mk db
      rw [show da = db from hab]

theorem copyPlugins_spec (inst : InstalledPlugins) (dir : FPath)
    (h3 : inst.vst3 ≠ dir) (hv : inst.vst ≠ dir) (fs0 : FS) :
    ∀ (ps : List String) (fs : FS) (n : Nat),
    (∀ p, inst.getPlugin fs p = inst.getPlugin fs0 p) →
    (∀ q, (∀ x, q ≠ dir ++ [x]) → fs.read q = fs0.read q) →
    fs.dirs = fs0.dirs →
    (∀ p ∈ ps, ∀ srcp, inst.getPlugin fs0 p = some srcp → (fs0.read srcp).isSome = true) →
    ∃ fs' : FS,
      copyPlugins inst dir fs n ps =
        .ok (fs', n + (ps.filter (fun p => (inst.getPlugin fs0 p).isSome)).length,
          ps.filter (fun p => (inst.getPlugin fs0 p).isNone)) ∧
      fs'.dirs = fs.dirs ∧
      (∀ q, (∀ x, q ≠ dir ++ [x]) → fs'.read q = fs.read q) ∧
      (∀ p srcp, p ∈ ps → inst.getPlugin fs0 p = some srcp →
        fs'.read (dir ++ [p ++ ".fst"]) = fs0.read srcp) ∧
      (∀ x, (∀ p ∈ ps, ¬(x = p ++ ".fst" ∧ (inst.getPlugin fs0 p).isSome = true)) →
        fs'.read (dir ++ [x]) = fs.read (dir ++ [x])) := by
  intro ps
  induction ps with
  | nil =>
    intro fs n hgp hread hdirs hsrc
    refine ⟨fs, ?_, rfl, fun q h => rfl, ?_, fun x h => rfl⟩
    · simp [copyPlugins]
    · intro p srcp hp
      exact absurd hp (List.not_mem_nil p)
  | cons p rest ih =>
    intro fs n hgp hread hdirs hsrc
    cases hg0 : inst.getPlugin fs0 p with
    | none =>
      have hg : inst.getPlugin fs p = none := by rw [hgp, hg0]
      obtain ⟨fs', hrun, hdirs', hoff, htr, hutr⟩ :=
        ih fs n hgp hread hdirs (fun p' hp' => hsrc p' (List.mem_cons_of_mem _ hp'))
      refine ⟨fs', ?_, hdirs', hoff, ?_, ?_⟩
      · simp only [copyPlugins, hg, hrun]
        rw [List.filter_cons_of_neg (by simp [hg0]),
          List.filter_cons_of_pos (by simp [hg0])]
      · intro p' srcp hp' hsp
        rcases List.mem_cons.mp hp' with rfl | hp2
        · rw [hg0] at hsp; cases hsp
        · exact htr p' srcp hp2 hsp
      · intro x hx
        exact hutr x (fun p' hp' => hx p' (List.mem_cons_of_mem _ hp'))
    | some srcp =>
      have hg : inst.getPlugin fs p = some srcp := by rw [hgp, hg0]
      have hsrcoff : ∀ x, srcp ≠ dir ++ [x] := by
        intro x he
        rcases getPlugin_shape inst fs0 p srcp hg0 with h1 | h1
        · rw [h1] at he
          exact h3 (append_singleton_inj.mp he).1
        · rw [h1] at he
          exact hv (append_singleton_inj.mp he).1
      have hs0 : (fs0.read srcp).isSome = true := hsrc p (List.mem_cons_self p rest) srcp hg0
      have hrs : fs.read srcp = fs0.read srcp := hread srcp hsrcoff
      obtain ⟨c, hc⟩ : ∃ c, fs.read srcp = some c := by
        rw [hrs]
        exact Option.isSome_iff_exists.mp hs0
      have hgp1 : ∀ p', inst.getPlugin (fs.writeFile (dir ++ [p ++ ".fst"]) c) p' =
          inst.getPlugin fs0 p' := by
        intro p'
        rw [getPlugin_writeFile inst fs dir _ c p' h3 hv, hgp]
      have hread1 : ∀ q, (∀ x, q ≠ dir ++ [x]) →
          (fs.writeFile (dir ++ [p ++ ".fst"]) c).read q = fs0.read q := by
        intro q hq
        rw [FS.read_writeFile, if_neg (hq _), hread q hq]
      have hdirs1 : (fs.writeFile (dir ++ [p ++ ".fst"]) c).dirs = fs0.dirs := by
        rw [FS.dirs_writeFile, hdirs]
      obtain ⟨fs', hrun, hdirs', hoff, htr, hutr⟩ :=
        ih (fs.writeFile (dir ++ [p ++ ".fst"]) c) (n + 1) hgp1 hread1 hdirs1
          (fun p' hp' => hsrc p' (List.mem_cons_of_mem _ hp'))
      refine ⟨fs', ?_, ?_, ?_, ?_, ?_⟩
      · simp only [copyPlugins, hg, hc, hrun]
        rw [List.filter_cons_of_pos (by simp [hg0]),
          List.filter_cons_of_neg (by simp [hg0])]
        simp only [List.length_cons]
        rw [show n + 1 + (rest.filter (fun p => (inst.getPlugin fs0 p).isSome)).length =
          n + ((rest.filter (fun p => (inst.getPlugin fs0 p).isSome)).length + 1) from by omega]
      · rw [hdirs', FS.dirs_writeFile]
      · intro q hq
        rw [hoff q hq, FS.read_writeFile, if_neg (hq _)]
      · intro p' srcp' hp' hsp'
        rcases List.mem_cons.mp hp' with rfl | hp2
        · by_cases hmem : p' ∈ rest
          · exact htr p' srcp' hmem hsp'
          · have hx : ∀ p2 ∈ rest, ¬(p' ++ ".fst" = p2 ++ ".fst" ∧
                (inst.getPlugin fs0 p2).isSome = true) := by
              rintro p2 hp2 ⟨he, _⟩
              exact hmem (string_append_right_cancel ".fst" he ▸ hp2)
            rw [hutr _ hx, FS.read_writeFile, if_pos rfl]
            rw [hg0] at hsp'
            rw [← Option.some.inj hsp', ← hrs, hc]
        · exact htr p' srcp' hp2 hsp'
      · intro x hx
        have hxp := hx p (List.mem_cons_self p rest)
        have hxne : ¬ (x = p ++ ".fst") := by
          intro he
          exact hxp ⟨he, by rw [hg0]; rfl⟩
        have hne2 : ¬ (dir ++ [x] = dir ++ [p ++ ".fst"]) := by
          intro he
          exact hxne (append_singleton_inj.mp he).2
        rw [hutr x (fun p' hp' => hx p' (List.mem_cons_of_mem _ hp')),
          FS.read_writeFile, if_neg hne2]

theorem sortStep_run (inst : InstalledPlugins) (pluginFolder : FPath) (fs : FS)
    (r : SortResult) (g : PluginGroup)
    (hne : g.plugins.isEmpty = false)
    (h3 : ¬ inst.vst3 <+: pluginFolder ++ [g.name])
    (hv : ¬ inst.vst <+: pluginFolder ++ [g.name])
    (hsrc : ∀ p ∈ g.plugins, ∀ srcp, inst.getPlugin fs p = some srcp →
      (fs.read srcp).isSome = true) :
    ∃ fs' : FS,
      sortStep inst pluginFolder fs r g =
        .ok (fs', ⟨r.folder_count + 1, r.plugin_count +
            (g.plugins.filter (fun p => (inst.getPlugin fs p).isSome)).length⟩,
          g.plugins.filter (fun p => (inst.getPlugin fs p).isNone)) ∧
      fs'.dirs = (fs.createDirAll (pluginFolder ++ [g.name])).dirs ∧
      (∀ q, (∀ x, q ≠ (pluginFolder ++ [g.name]) ++ [x]) → fs'.read q = fs.read q) ∧
      (∀ p srcp, p ∈ g.plugins → inst.getPlugin fs p = some srcp →
        fs'.read ((pluginFolder ++ [g.name]) ++ [p ++ ".fst"]) = fs.read srcp) ∧
      (∀ x, (∀ p ∈ g.plugins, ¬(x = p ++ ".fst" ∧ (inst.getPlugin fs p).isSome = true)) →
        fs'.read ((pluginFolder ++ [g.name]) ++ [x]) =
          fs.read ((pluginFolder ++ [g.name]) ++ [x])) := by
  have h3e : inst.vst3 ≠ pluginFolder ++ [g.name] :=
    fun he => h3 (he ▸ List.prefix_refl _)
  have hve : inst.vst ≠ pluginFolder ++ [g.name] :=
    fun he => hv (he ▸ List.prefix_refl _)
  have hgpc : ∀ p, inst.getPlugin (fs.createDirAll (pluginFolder ++ [g.name])) p =
      inst.getPlugin fs p :=
    getPlugin_run_stable inst (pluginFolder ++ [g.name]) fs _ h3 hv rfl (fun q _ => rfl)
  have hsrc1 : ∀ p ∈ g.plugins, ∀ srcp,
      inst.getPlugin (fs.createDirAll (pluginFolder ++ [g.name])) p = some srcp →
      ((fs.createDirAll (pluginFolder ++ [g.name])).read srcp).isSome = true := by
    intro p hp srcp hsp
    rw [hgpc] at hsp
    rw [FS.read_createDirAll]
    exact hsrc p hp srcp hsp
  obtain ⟨fs', hrun, hdirs', hoff, htr, hutr⟩ :=
    copyPlugins_spec inst (pluginFolder ++ [g.name]) h3e hve
      (fs.createDirAll (pluginFolder ++ [g.name])) g.plugins
      (fs.createDirAll (pluginFolder ++ [g.name])) r.plugin_count
      (fun _ => rfl) (fun _ _ => rfl) rfl hsrc1
  refine ⟨fs', ?_, ?_, ?_, ?_, ?_⟩
  · unfold sortStep
    rw [if_neg (by simp [hne])]
    simp only [hrun]
    have hfil1 : g.plugins.filter
        (fun p => (inst.getPlugin (fs.createDirAll (pluginFolder ++ [g.name])) p).isSome) =
        g.plugins.filter (fun p => (inst.getPlugin fs p).isSome) :=
      List.filter_congr (fun p _ => by rw [hgpc p])
    have hfil2 : g.plugins.filter
        (fun p => (inst.getPlugin (fs.createDirAll (pluginFolder ++ [g.name])) p).isNone) =
        g.plugins.filter (fun p => (inst.getPlugin fs p).isNone) :=
      List.filter_congr (fun p _ => by rw [hgpc p])
    rw [hfil1, hfil2]
  · rw [hdirs']
  · intro q hq
    rw [hoff q hq, FS.read_createDirAll]
  · intro p srcp hp hsp
    rw [htr p srcp hp (by rw [hgpc]; exact hsp), FS.read_createDirAll]
  · intro x hx
    rw [hutr x (fun p hp hcon => hx p hp ⟨hcon.1, by rw [← hgpc p]; exact hcon.2⟩),
      FS.read_createDirAll]

/-- C4: in a sort pass, a group with an empty plugin list is skipped
entirely — the filesystem state and both counters are unchanged — and
every group with a nonempty plugin list increments the category's
folder counter by exactly one, independent of how many of its plugins
resolved: on a successful pass the folder counter equals the number of
nonempty groups. -/
theorem sortGroups_skip_and_folder_count (inst : InstalledPlugins) (pluginFolder : FPath) :
    (∀ (fs : FS) (r : SortResult) (g : PluginGroup), g.plugins = [] →
      sortStep inst pluginFolder fs r g = .ok (fs, r, [])) ∧
    (∀ (fs fs' : FS) (groups : List PluginGroup) (r' : SortResult),
      sortGroups inst pluginFolder fs groups = .ok (fs', r') →
      r'.folder_count = (groups.filter (fun g => !g.plugins.isEmpty)).length) := by
  have hstep : ∀ (fs : FS) (r : SortResult) (g : PluginGroup), g.plugins = [] →
      sortStep inst pluginFolder fs r g = .ok (fs, r, []) := by
    intro fs r g hg
    unfold sortStep
    rw [if_pos (by simp [hg])]
  refine ⟨hstep, ?_⟩
  have aux : ∀ (groups : List PluginGroup) (fs : FS) (r : SortResult) (fs' : FS)
      (r' : SortResult),
      sortGroupsAux inst pluginFolder fs r groups = .ok (fs', r') →
      r'.folder_count = r.folder_count +
        (groups.filter (fun g => !g.plugins.isEmpty)).length := by
    intro groups
    induction groups with
    | nil =>
      intro fs r fs' r' h
      unfold sortGroupsAux at h
      cases h
      simp
    | cons g rest ih =>
      intro fs r fs' r' h
      unfold sortGroupsAux at h
      split at h
      · exact absurd h (by simp)
      · rename_i fs1 r1 sk heq
        by_cases hg : g.plugins.isEmpty
        · have hgl : g.plugins = [] := List.isEmpty_iff.mp hg
          rw [hstep fs r g hgl] at heq
          cases heq
          rw [ih _ _ _ _ h]
          simp [List.filter_cons, hg]
        · unfold sortStep at heq
          rw [if_neg hg] at heq
          split at heq
          · exact absurd heq (by simp)
          · rename_i fs2 n sk2 hcopy
            cases heq
            rw [ih _ _ _ _ h]
            simp only [List.filter_cons, hg, Bool.not_false, if_pos, List.length_cons]
            omega
  intro fs fs' groups r' h
  have := aux groups fs ⟨0, 0⟩ fs' r' h
  simpa using this

/-- Witness for C4: a run over one empty and one nonempty group counts
exactly one folder. -/
theorem sortGroups_skip_and_folder_count_w :
    (SortResult.mk 1 1).folder_count =
      (([⟨"E", []⟩, ⟨"G", ["a", "miss"]⟩] : List PluginGroup).filter
        (fun g => !g.plugins.isEmpty)).length :=
  (sortGroups_skip_and_folder_count ⟨["VST"], ["VST3"]⟩ ["Effects"]).2
    ⟨[["VST3"], ["VST"]], [(["VST3", "a.fst"], "x")]⟩
    ⟨[["Effects"], ["Effects", "G"], ["VST3"], ["VST"]],
      [(["Effects", "G", "a.fst"], "x"), (["VST3", "a.fst"], "x")]⟩
    [⟨"E", []⟩, ⟨"G", ["a", "miss"]⟩] ⟨1, 1⟩ rfl

/-- C5: sorting a nonempty group: every plugin name that resolves in
the category's index is copied into the group's destination folder as
`<name>.fst` (overwriting any prior copy) and increments the plugin
counter, and every unresolvable name is reported as a skip without
incrementing.  Hence the plugin-counter increment equals the number of
resolvable names with multiplicity, the skip list is exactly the
unresolvable names in order, and — starting from a filesystem with no
files under the destination folder — the destination folder afterwards
contains exactly the shim files of the resolvable names. -/
theorem sortStep_copies_resolvable (inst : InstalledPlugins) (pluginFolder : FPath)
    (fs : FS) (r : SortResult) (g : PluginGroup)
    (hne : g.plugins ≠ [])
    (h3 : ¬ inst.vst3 <+: pluginFolder ++ [g.name])
    (hv : ¬ inst.vst <+: pluginFolder ++ [g.name])
    (hsrc : ∀ p ∈ g.plugins, ∀ srcp, inst.getPlugin fs p = some srcp →
      (fs.read srcp).isSome = true)
    (hfresh : ∀ q c, (q, c) ∈ fs.files → ¬ (pluginFolder ++ [g.name]) <+: q) :
    ∃ fs' : FS,
      sortStep inst pluginFolder fs r g =
        .ok (fs', ⟨r.folder_count + 1, r.plugin_count +
            (g.plugins.filter (fun p => (inst.getPlugin fs p).isSome)).length⟩,
          g.plugins.filter (fun p => (inst.getPlugin fs p).isNone)) ∧
      (∀ q, (fs'.isFile q = true ∧ (pluginFolder ++ [g.name]) <+: q) ↔
        (∃ p ∈ g.plugins, (inst.getPlugin fs p).isSome = true ∧
          q = (pluginFolder ++ [g.name]) ++ [p ++ ".fst"])) := by
  have hneb : g.plugins.isEmpty = false := by
    cases hp : g.plugins with
    | nil => exact absurd hp hne
    | cons a t => rfl
  obtain ⟨fs', hrun, hdirs', hoff, htr, hutr⟩ :=
    sortStep_run inst pluginFolder fs r g hneb h3 hv hsrc
  have hfread : ∀ q, (pluginFolder ++ [g.name]) <+: q → fs.read q = none := by
    intro q hq
    exact FS.read_eq_none_of_notmem fs q (fun c hc => hfresh q c hc hq)
  refine ⟨fs', hrun, ?_⟩
  intro q
  constructor
  · rintro ⟨hfile, hpre⟩
    rw [FS.isFile_eq_read_isSome] at hfile
    by_cases hform : ∃ x, q = (pluginFolder ++ [g.name]) ++ [x]
    · obtain ⟨x, rfl⟩ := hform
      by_cases htrk : ∃ p ∈ g.plugins, (inst.getPlugin fs p).isSome = true ∧ x = p ++ ".fst"
      · obtain ⟨p, hp, hres, rfl⟩ := htrk
        exact ⟨p, hp, hres, rfl⟩
      · exfalso
        have hx : ∀ p ∈ g.plugins,
            ¬(x = p ++ ".fst" ∧ (inst.getPlugin fs p).isSome = true) := by
          rintro p hp ⟨he, hres⟩
          exact htrk ⟨p, hp, hres, he⟩
        rw [hutr x hx, hfread _ hpre] at hfile
        simp at hfile
    · exfalso
      have hq : ∀ x, q ≠ (pluginFolder ++ [g.name]) ++ [x] := fun x he => hform ⟨x, he⟩
      rw [hoff q hq, hfread q hpre] at hfile
      simp at hfile
  · rintro ⟨p, hp, hres, rfl⟩
    obtain ⟨srcp, hsp⟩ := Option.isSome_iff_exists.mp hres
    refine ⟨?_, List.prefix_append _ _⟩
    rw [FS.isFile_eq_read_isSome, htr p srcp hp hsp]
    exact hsrc p hp srcp hsp

/-- Witness for C5 at the spec's own example: group Mix with plugins
Real (resolvable) and Ghost (missing). -/
theorem sortStep_copies_resolvable_w :
    ∃ fs' : FS,
      sortStep ⟨["VST"], ["VST3"]⟩ ["Effects"]
          ⟨[["VST3"], ["VST"]], [(["VST3", "Real.fst"], "r")]⟩ ⟨0, 0⟩
          ⟨"Mix", ["Real", "Ghost"]⟩ =
        .ok (fs', ⟨0 + 1, 0 +
            ((PluginGroup.mk "Mix" ["Real", "Ghost"]).plugins.filter (fun p =>
              (InstalledPlugins.getPlugin ⟨["VST"], ["VST3"]⟩
                ⟨[["VST3"], ["VST"]], [(["VST3", "Real.fst"], "r")]⟩ p).isSome)).length⟩,
          (PluginGroup.mk "Mix" ["Real", "Ghost"]).plugins.filter (fun p =>
            (InstalledPlugins.getPlugin ⟨["VST"], ["VST3"]⟩
              ⟨[["VST3"], ["VST"]], [(["VST3", "Real.fst"], "r")]⟩ p).isNone)) ∧
      (∀ q, (fs'.isFile q = true ∧ (["Effects"] ++ ["Mix"]) <+: q) ↔
        (∃ p ∈ (PluginGroup.mk "Mix" ["Real", "Ghost"]).plugins,
          (InstalledPlugins.getPlugin ⟨["VST"], ["VST3"]⟩
            ⟨[["VST3"], ["VST"]], [(["VST3", "Real.fst"], "r")]⟩ p).isSome = true ∧
          q = (["Effects"] ++ ["Mix"]) ++ [p ++ ".fst"])) :=
  sortStep_copies_resolvable ⟨["VST"], ["VST3"]⟩ ["Effects"]
    ⟨[["VST3"], ["VST"]], [(["VST3", "Real.fst"], "r")]⟩ ⟨0, 0⟩
    ⟨"Mix", ["Real", "Ghost"]⟩
    (by decide) (by decide) (by decide)
    (by
      intro p hp srcp hsp
      fin_cases hp
      · simp only [show InstalledPlugins.getPlugin ⟨["VST"], ["VST3"]⟩
            ⟨[["VST3"], ["VST"]], [(["VST3", "Real.fst"], "r")]⟩ "Real" =
            some ["VST3", "Real.fst"] from rfl] at hsp
        cases hsp
        rfl
      · exact Option.noConfusion hsp)
    (by
      intro q c hc hpre
      rw [List.mem_singleton] at hc
      have hq : q = ["VST3", "Real.fst"] := congrArg Prod.fst hc
      rw [hq] at hpre
      exact absurd hpre (by decide))

/-- C9: sort is idempotent per group: with the installed-plugin index
untouched by the destination folder, running `sort_groups` twice on the
same unchanged singleton group list yields a successful run both times,
reports identical folder and plugin counts, and leaves the filesystem
extensionally identical after the second run (same file contents
everywhere, same files, same directories): the second run overwrites
the shim files and never duplicates them. -/
theorem sortGroups_idempotent (inst : InstalledPlugins) (pluginFolder : FPath)
    (fs : FS) (g : PluginGroup)
    (h3 : ¬ inst.vst3 <+: pluginFolder ++ [g.name])
    (hv : ¬ inst.vst <+: pluginFolder ++ [g.name])
    (hsrc : ∀ p ∈ g.plugins, ∀ srcp, inst.getPlugin fs p = some srcp →
      (fs.read srcp).isSome = true) :
    ∃ (fs1 fs2 : FS) (r1 r2 : SortResult),
      sortGroups inst pluginFolder fs [g] = .ok (fs1, r1) ∧
      sortGroups inst pluginFolder fs1 [g] = .ok (fs2, r2) ∧
      r1 = r2 ∧
      (∀ q, fs2.read q = fs1.read q) ∧
      (∀ q, fs2.isFile q = fs1.isFile q) ∧
      (∀ q, fs2.isDir q = fs1.isDir q) := by
  by_cases hne : g.plugins.isEmpty = true
  · have hstep : ∀ fsx : FS, sortGroups inst pluginFolder fsx [g] = .ok (fsx, ⟨0, 0⟩) := by
      intro fsx
      have h1 : sortStep inst pluginFolder fsx ⟨0, 0⟩ g = .ok (fsx, ⟨0, 0⟩, []) := by
        unfold sortStep
        rw [if_pos hne]
      simp only [sortGroups, sortGroupsAux, h1]
    exact ⟨fs, fs, ⟨0, 0⟩, ⟨0, 0⟩, hstep fs, hstep fs, rfl,
      fun q => rfl, fun q => rfl, fun q => rfl⟩
  · have hneb : g.plugins.isEmpty = false := by
      cases hp : g.plugins.isEmpty
      · rfl
      · exact absurd hp hne
    obtain ⟨fs1, hrun1, hdirs1, hoff1, htr1, hutr1⟩ :=
      sortStep_run inst pluginFolder fs ⟨0, 0⟩ g hneb h3 hv hsrc
    have hstab1 : ∀ p, inst.getPlugin fs1 p = inst.getPlugin fs p :=
      getPlugin_run_stable inst (pluginFolder ++ [g.name]) fs fs1 h3 hv hdirs1 hoff1
    have hsrc1 : ∀ p ∈ g.plugins, ∀ srcp, inst.getPlugin fs1 p = some srcp →
        (fs1.read srcp).isSome = true := by
      intro p hp srcp hsp
      rw [hstab1] at hsp
      rw [hoff1 srcp (getPlugin_src_off inst (pluginFolder ++ [g.name]) fs p srcp h3 hv hsp)]
      exact hsrc p hp srcp hsp
    obtain ⟨fs2, hrun2, hdirs2, hoff2, htr2, hutr2⟩ :=
      sortStep_run inst pluginFolder fs1 ⟨0, 0⟩ g hneb h3 hv hsrc1
    have hfil : g.plugins.filter (fun p => (inst.getPlugin fs1 p).isSome) =
        g.plugins.filter (fun p => (inst.getPlugin fs p).isSome) :=
      List.filter_congr (fun p _ => by rw [hstab1 p])
    have hsg1 : sortGroups inst pluginFolder fs [g] = .ok (fs1, ⟨0 + 1,
        0 + (g.plugins.filter (fun p => (inst.getPlugin fs p).isSome)).length⟩) := by
      simp only [sortGroups, sortGroupsAux, hrun1]
    have hsg2 : sortGroups inst pluginFolder fs1 [g] = .ok (fs2, ⟨0 + 1,
        0 + (g.plugins.filter (fun p => (inst.getPlugin fs p).isSome)).length⟩) := by
      simp only [sortGroups, sortGroupsAux, hrun2, hfil]
    have hread21 : ∀ q, fs2.read q = fs1.read q := by
      intro q
      by_cases hform : ∃ x, q = (pluginFolder ++ [g.name]) ++ [x]
      · obtain ⟨x, rfl⟩ := hform
        by_cases htrk : ∃ p ∈ g.plugins, (inst.getPlugin fs p).isSome = true ∧ x = p ++ ".fst"
        · obtain ⟨p, hp, hres, rfl⟩ := htrk
          obtain ⟨srcp, hsp⟩ := Option.isSome_iff_exists.mp hres
          have hsp1 : inst.getPlugin fs1 p = some srcp := by
            rw [hstab1]
            exact hsp
          have hsoff := getPlugin_src_off inst (pluginFolder ++ [g.name]) fs p srcp h3 hv hsp
          rw [htr2 p srcp hp hsp1, htr1 p srcp hp hsp, hoff1 srcp hsoff]
        · have hx : ∀ p ∈ g.plugins,
              ¬(x = p ++ ".fst" ∧ (inst.getPlugin fs1 p).isSome = true) := by
            rintro p hp ⟨he, hres⟩
            exact htrk ⟨p, hp, by rw [← hstab1 p]; exact hres, he⟩
          exact hutr2 x hx
      · exact hoff2 q (fun x he => hform ⟨x, he⟩)
    have hfile21 : ∀ q, fs2.isFile q = fs1.isFile q := by
      intro q
      rw [FS.isFile_eq_read_isSome, FS.isFile_eq_read_isSome, hread21]
    have hdir21 : ∀ q, fs2.isDir q = fs1.isDir q := by
      intro q
      by_cases h2 : fs2.isDir q = true
      · rw [h2]
        have hm : (fs1.createDirAll (pluginFolder ++ [g.name])).isDir q = true := by
          rw [← FS.isDir_congr fs2 (fs1.createDirAll (pluginFolder ++ [g.name])) q hdirs2]
          exact h2
        rcases (FS.isDir_createDirAll_iff fs1 _ q).mp hm with ⟨hq0, hqp⟩ | hmem
        · have hin1 : (fs.createDirAll (pluginFolder ++ [g.name])).isDir q = true :=
            (FS.isDir_createDirAll_iff fs _ q).mpr (Or.inl ⟨hq0, hqp⟩)
          rw [FS.isDir_congr fs1 (fs.createDirAll (pluginFolder ++ [g.name])) q hdirs1]
          exact hin1.symm
        · exact hmem.symm
      · rw [Bool.not_eq_true] at h2
        rw [h2]
        by_cases h1 : fs1.isDir q = true
        · exfalso
          have hcon : fs2.isDir q = true := by
            rw [FS.isDir_congr fs2 (fs1.createDirAll (pluginFolder ++ [g.name])) q hdirs2]
            exact (FS.isDir_createDirAll_iff fs1 _ q).mpr (Or.inr h1)
          rw [h2] at hcon
          cases hcon
        · rw [Bool.not_eq_true] at h1
          rw [h1]
    exact ⟨fs1, fs2, _, _, hsg1, hsg2, rfl, hread21, hfile21, hdir21⟩

/-- Witness for C9 at a concrete group whose one plugin resolves. -/
theorem sortGroups_idempotent_w :
    ∃ (fs1 fs2 : FS) (r1 r2 : SortResult),
      sortGroups ⟨["VST"], ["VST3"]⟩ ["Effects"]
          ⟨[["VST3"], ["VST"]], [(["VST3", "Real.fst"], "r")]⟩
          [⟨"Mix", ["Real", "Ghost"]⟩] = .ok (fs1, r1) ∧
      sortGroups ⟨["VST"], ["VST3"]⟩ ["Effects"] fs1 [⟨"Mix", ["Real", "Ghost"]⟩] =
        .ok (fs2, r2) ∧
      r1 = r2 ∧
      (∀ q, fs2.read q = fs1.read q) ∧
      (∀ q, fs2.isFile q = fs1.isFile q) ∧
      (∀ q, fs2.isDir q = fs1.isDir q) :=
  sortGroups_idempotent ⟨["VST"], ["VST3"]⟩ ["Effects"]
    ⟨[["VST3"], ["VST"]], [(["VST3", "Real.fst"], "r")]⟩ ⟨"Mix", ["Real", "Ghost"]⟩
    (by decide) (by decide)
    (by
      intro p hp srcp hsp
      fin_cases hp
      · simp only [show InstalledPlugins.getPlugin ⟨["VST"], ["VST3"]⟩
            ⟨[["VST3"], ["VST"]], [(["VST3", "Real.fst"], "r")]⟩ "Real" =
            some ["VST3", "Real.fst"] from rfl] at hsp
        cases hsp
        rfl
      · exact Option.noConfusion hsp)

theorem FS.mem_files_removeFile (fs : FS) (p q : FPath) (c : String) :
    (q, c) ∈ (fs.removeFile p).files ↔ (q, c) ∈ fs.files ∧ q ≠ p := by
  simp [FS.removeFile, List.mem_filter]

theorem FS.dirs_removeFile (fs : FS) (p : FPath) : (fs.removeFile p).dirs = fs.dirs := rfl

theorem FS.files_removeDir (fs : FS) (p : FPath) : (fs.removeDir p).files = fs.files := rfl

theorem FS.mem_dirs_removeDir (fs : FS) (p q : FPath) :
    q ∈ (fs.removeDir p).dirs ↔ q ∈ fs.dirs ∧ q ≠ p := by
  simp [FS.removeDir, List.mem_filter]

theorem removePlugins_dirs (base : FPath) :
    ∀ (ps : List String) (fs : FS) (n : Nat),
      (removePlugins base fs n ps).1.dirs = fs.dirs := by
  intro ps
  induction ps with
  | nil => intro fs n; rfl
  | cons p rest ih =>
    intro fs n
    unfold removePlugins
    by_cases hc : (fs.pathExists (base ++ [p ++ ".fst"]) &&
        fs.isFile (base ++ [p ++ ".fst"])) = true
    · rw [if_pos hc, ih]
      rfl
    · rw [if_neg hc, ih]

theorem removePlugins_files_sub (base : FPath) :
    ∀ (ps : List String) (fs : FS) (n : Nat) (q : FPath) (c : String),
      (q, c) ∈ (removePlugins base fs n ps).1.files → (q, c) ∈ fs.files := by
  intro ps
  induction ps with
  | nil => intro fs n q c hm; exact hm
  | cons p rest ih =>
    intro fs n q c hm
    unfold removePlugins at hm
    by_cases hc : (fs.pathExists (base ++ [p ++ ".fst"]) &&
        fs.isFile (base ++ [p ++ ".fst"])) = true
    · rw [if_pos hc] at hm
      exact ((FS.mem_files_removeFile fs _ q c).mp (ih _ _ q c hm)).1
    · rw [if_neg hc] at hm
      exact ih _ _ q c hm

theorem removePlugins_files_keep (base : FPath) :
    ∀ (ps : List String) (fs : FS) (n : Nat) (q : FPath) (c : String),
      (q, c) ∈ fs.files → (∀ p ∈ ps, q ≠ base ++ [p ++ ".fst"]) →
      (q, c) ∈ (removePlugins base fs n ps).1.files := by
  intro ps
  induction ps with
  | nil => intro fs n q c hm _; exact hm
  | cons p rest ih =>
    intro fs n q c hm hq
    unfold removePlugins
    by_cases hc : (fs.pathExists (base ++ [p ++ ".fst"]) &&
        fs.isFile (base ++ [p ++ ".fst"])) = true
    · rw [if_pos hc]
      exact ih _ _ q c
        ((FS.mem_files_removeFile fs _ q c).mpr ⟨hm, hq p (List.mem_cons_self p rest)⟩)
        (fun p' hp' => hq p' (List.mem_cons_of_mem _ hp'))
    · rw [if_neg hc]
      exact ih _ _ q c hm (fun p' hp' => hq p' (List.mem_cons_of_mem _ hp'))

theorem FS.dirEmptyB_spec (fs : FS) (d : FPath) (h : fs.dirEmptyB d = true) :
    ∀ q, ¬ fs.EntryUnder d q := by
  rintro q ⟨hmem, hpre, hne⟩
  unfold FS.dirEmptyB at h
  rw [Bool.and_eq_true] at h
  obtain ⟨hd, hf⟩ := h
  rcases hmem with hq | ⟨c, hq⟩
  · have := List.all_eq_true.mp hd q hq
    simp [hpre, hne] at this
  · have := List.all_eq_true.mp hf (q, c) hq
    simp [hpre, hne] at this

theorem unsortStep_spec (db : PluginDatabase) (t : PluginGroupType) (fs : FS) (n : Nat)
    (g : PluginGroup) (fs' : FS) (n' : Nat)
    (h : unsortStep db t fs n g = .ok (fs', n')) :
    (∀ q c, (q, c) ∈ fs.files →
      (∀ p ∈ g.plugins, q ≠ db.getGroupPath g t ++ [p ++ ".fst"]) →
      (q, c) ∈ fs'.files) ∧
    (∀ q c, (q, c) ∈ fs'.files → (q, c) ∈ fs.files) ∧
    (∀ d, d ∈ fs'.dirs → d ∈ fs.dirs) ∧
    (∀ d, d ∈ fs.dirs → d ∉ fs'.dirs →
      d = db.getGroupPath g t ∧ ∀ q, ¬ fs'.EntryUnder d q) := by
  unfold unsortStep at h
  cases hex : fs.pathExists (db.getGroupPath g t) with
  | false =>
    rw [if_pos (by rw [hex]; rfl)] at h
    cases h
    exact ⟨fun q c hm _ => hm, fun q c hm => hm, fun d hd => hd,
      fun d hd hnd => absurd hd hnd⟩
  | true =>
    rw [if_neg (by rw [hex]; simp)] at h
    by_cases hdir : (removePlugins (db.getGroupPath g t) fs n g.plugins).1.isDir
        (db.getGroupPath g t) = true
    · rw [if_pos hdir] at h
      by_cases hemp : (removePlugins (db.getGroupPath g t) fs n g.plugins).1.dirEmptyB
          (db.getGroupPath g t) = true
      · rw [if_pos hemp] at h
        cases h
        refine ⟨?_, ?_, ?_, ?_⟩
        · intro q c hm hq
          rw [FS.files_removeDir]
          exact removePlugins_files_keep _ _ fs n q c hm hq
        · intro q c hm
          rw [FS.files_removeDir] at hm
          exact removePlugins_files_sub _ _ fs n q c hm
        · intro d hd
          rw [FS.mem_dirs_removeDir] at hd
          rw [removePlugins_dirs] at hd
          exact hd.1
        · intro d hd hnd
          have hd1 : d ∈ (removePlugins (db.getGroupPath g t) fs n g.plugins).1.dirs := by
            rw [removePlugins_dirs]
            exact hd
          have hdeq : d = db.getGroupPath g t := by
            by_contra hne
            exact hnd ((FS.mem_dirs_removeDir _ _ d).mpr ⟨hd1, hne⟩)
          refine ⟨hdeq, ?_⟩
          rintro q ⟨hmem, hpre, hne⟩
          apply FS.dirEmptyB_spec _ _ hemp q
          refine ⟨?_, hdeq ▸ hpre, hdeq ▸ hne⟩
          rcases hmem with hq | ⟨c, hq⟩
          · rw [FS.mem_dirs_removeDir] at hq
            exact Or.inl hq.1
          · rw [FS.files_removeDir] at hq
            exact Or.inr ⟨c, hq⟩
      · rw [if_neg hemp] at h
        cases h
        refine ⟨?_, ?_, ?_, ?_⟩
        · intro q c hm hq
          exact removePlugins_files_keep _ _ fs n q c hm hq
        · intro q c hm
          exact removePlugins_files_sub _ _ fs n q c hm
        · intro d hd
          rw [removePlugins_dirs] at hd
          exact hd
        · intro d hd hnd
          rw [removePlugins_dirs] at hnd
          exact absurd hd hnd
    · rw [if_neg hdir] at h
      exact absurd h (by simp)

theorem removeSortedFilesAux_spec (db : PluginDatabase) (t : PluginGroupType) :
    ∀ (groups : List PluginGroup) (fs : FS) (n : Nat) (fs' : FS) (n' : Nat),
      removeSortedFilesAux db t fs n groups = .ok (fs', n') →
      (∀ q c, (q, c) ∈ fs.files →
        (∀ g ∈ groups, ∀ p ∈ g.plugins, q ≠ db.getGroupPath g t ++ [p ++ ".fst"]) →
        (q, c) ∈ fs'.files) ∧
      (∀ q c, (q, c) ∈ fs'.files → (q, c) ∈ fs.files) ∧
      (∀ d, d ∈ fs'.dirs → d ∈ fs.dirs) ∧
      (∀ d, d ∈ fs.dirs → d ∉ fs'.dirs →
        (∃ g ∈ groups, d = db.getGroupPath g t) ∧ (∀ q, ¬ fs'.EntryUnder d q)) := by
  intro groups
  induction groups with
  | nil =>
    intro fs n fs' n' h
    unfold removeSortedFilesAux at h
    cases h
    exact ⟨fun q c hm _ => hm, fun q c hm => hm, fun d hd => hd,
      fun d hd hnd => absurd hd hnd⟩
  | cons g rest ih =>
    intro fs n fs' n' h
    unfold removeSortedFilesAux at h
    split at h
    · exact absurd h (by simp)
    · rename_i fs1 n1 heq
      obtain ⟨hF1, hF2, hD1, hD2⟩ := unsortStep_spec db t fs n g fs1 n1 heq
      obtain ⟨iF1, iF2, iD1, iD2⟩ := ih fs1 n1 fs' n' h
      refine ⟨?_, ?_, ?_, ?_⟩
      · intro q c hm hq
        exact iF1 q c (hF1 q c hm (fun p hp => hq g (List.mem_cons_self g rest) p hp))
          (fun g' hg' p hp => hq g' (List.mem_cons_of_mem _ hg') p hp)
      · intro q c hm
        exact hF2 q c (iF2 q c hm)
      · intro d hd
        exact hD1 d (iD1 d hd)
      · intro d hd hnd
        by_cases hd1 : d ∈ fs1.dirs
        · obtain ⟨⟨g', hg', he⟩, hent⟩ := iD2 d hd1 hnd
          exact ⟨⟨g', List.mem_cons_of_mem _ hg', he⟩, hent⟩
        · obtain ⟨he, hent⟩ := hD2 d hd hd1
          refine ⟨⟨g, List.mem_cons_self g rest, he⟩, ?_⟩
          rintro q ⟨hmem, hpre, hne⟩
          apply hent q
          refine ⟨?_, hpre, hne⟩
          rcases hmem with hq | ⟨c, hq⟩
          · exact Or.inl (iD1 q hq)
          · exact Or.inr ⟨c, iF2 q c hq⟩

/-- C8: frame property of `UnsortSubcommand::remove_sorted_files` on a
successful run: (1) a file that is not a tracked shim of any group
(`<destination g>/<plugin>.fst` for a plugin named in `g`'s current
definition) survives untouched, and no file is ever added; (2) a
directory is removed only when it is some group's destination folder
AND no entry remains below it afterwards.  Together these give the
spec's scenario: an unrelated leftover file in the destination folder
survives, and its presence keeps the directory in place. -/
theorem removeSortedFiles_frame (db : PluginDatabase) (groups : List PluginGroup)
    (t : PluginGroupType) (fs fs' : FS) (n' : Nat)
    (h : removeSortedFiles db groups t fs = .ok (fs', n')) :
    (∀ q c, (q, c) ∈ fs.files →
      (∀ g ∈ groups, ∀ p ∈ g.plugins, q ≠ db.getGroupPath g t ++ [p ++ ".fst"]) →
      (q, c) ∈ fs'.files) ∧
    (∀ q c, (q, c) ∈ fs'.files → (q, c) ∈ fs.files) ∧
    (∀ d, d ∈ fs'.dirs → d ∈ fs.dirs) ∧
    (∀ d, d ∈ fs.dirs → d ∉ fs'.dirs →
      (∃ g ∈ groups, d = db.getGroupPath g t) ∧ (∀ q, ¬ fs'.EntryUnder d q)) := by
  unfold removeSortedFiles at h
  by_cases hemp : groups.isEmpty = true
  · rw [if_pos hemp] at h
    cases h
    exact ⟨fun q c hm _ => hm, fun q c hm => hm, fun d hd => hd,
      fun d hd hnd => absurd hd hnd⟩
  · rw [if_neg hemp] at h
    exact removeSortedFilesAux_spec db t groups fs 0 fs' n' h

/-- Witness for C8 at the spec's scenario: a destination folder holding
one tracked shim and one unrelated file — after unsort the unrelated
file survives (and, the run having kept an entry below it, the
directory is not removed). -/
theorem removeSortedFiles_frame_w :
    removeSortedFiles
        ⟨⟨.effect, ⟨["V"], ["V3"]⟩, ["Effects"]⟩, ⟨.generator, ⟨["V"], ["V3"]⟩, ["Generators"]⟩⟩
        [⟨"G", ["a"]⟩] .effect
        ⟨[["Effects", "G"]], [(["Effects", "G", "a.fst"], "x"), (["Effects", "G", "junk"], "y")]⟩ =
      .ok (⟨[["Effects", "G"]], [(["Effects", "G", "junk"], "y")]⟩, 1) ∧
    (["Effects", "G", "junk"], "y") ∈
      (FS.mk [["Effects", "G"]] [(["Effects", "G", "junk"], "y")]).files :=
  ⟨rfl,
   (removeSortedFiles_frame
      ⟨⟨.effect, ⟨["V"], ["V3"]⟩, ["Effects"]⟩, ⟨.generator, ⟨["V"], ["V3"]⟩, ["Generators"]⟩⟩
      [⟨"G", ["a"]⟩] .effect
      ⟨[["Effects", "G"]], [(["Effects", "G", "a.fst"], "x"), (["Effects", "G", "junk"], "y")]⟩
      ⟨[["Effects", "G"]], [(["Effects", "G", "junk"], "y")]⟩ 1 rfl).1
     ["Effects", "G", "junk"] "y" (by decide) (by decide)⟩
